import Mathlib

/-!
Shallow embedding of the PAA5160E1 Pico library (SparkFun Qwiic OTOS driver
port): the bus transaction layer of `src/utils.cpp` and the register-protocol
layer of `src/sfeQwiicOtos.cpp`.

Modelling conventions:
* The I2C transport (`i2c_write_blocking` / `i2c_read_blocking`) is an external
  collaborator.  A write is modelled by its integer result; the sequence of
  reads is modelled by an oracle `reads : Nat → Nat → Int` giving, for the k-th
  read call and the requested byte count, the transport return value
  (negative = error, otherwise the number of bytes delivered).
* C `float` computations are modelled over `ℚ` with exact arithmetic; a C cast
  `(intN_t)` from a floating value is modelled as truncation toward zero
  (`ratTrunc`), and integer narrowing casts wrap modulo 2^N.
* The `while (numBytes > 0)` loop of `readRegisterRegionAnyAddress` has no
  syntactic termination measure (a read can return 0 bytes), so it is embedded
  with explicit fuel: `none` means the fuel ran out, i.e. the loop has not
  returned after that many iterations.
* Byte buffers only matter through their lengths and the decoded values, so a
  read log records, per transport read, the requested chunk size and the
  bus-hold flag passed to the transport.
-/

/-- Error code `kSTkErrOk` from `utils.h`. -/
def kSTkErrOk : Int := 0

/-- Error code `kSTkErrFail` from `utils.h`. -/
def kSTkErrFail : Int := -1

/-- Error code base `kSTkErrBaseBus` from `utils.h`. -/
def kSTkErrBaseBus : Int := 0x1000

/-- Error code `kSTkErrBusNotInit = kSTkErrFail * (kSTkErrBaseBus + 1)` from `utils.h`. -/
def kSTkErrBusNotInit : Int := kSTkErrFail * (kSTkErrBaseBus + 1)

/-- Error code `kSTkErrBusNullBuffer = kSTkErrFail * (kSTkErrBaseBus + 6)` from `utils.h`. -/
def kSTkErrBusNullBuffer : Int := kSTkErrFail * (kSTkErrBaseBus + 6)

/-- Error code `kSTkErrBusUnderRead = kSTkErrBaseBus + 7` from `utils.h`. -/
def kSTkErrBusUnderRead : Int := kSTkErrBaseBus + 7

/-- Chunk size `kDefaultBufferChunk` from `utils.h`. -/
def kDefaultBufferChunk : Nat := 32

/-- Outcome of a terminating `readRegisterRegionAnyAddress` call: the returned
error code, the value left in the `readBytes` out-parameter, and the log of
transport reads issued (requested chunk size, bus-hold flag). -/
structure RegionRun where
  code : Int
  readBytes : Nat
  readLog : List (Nat × Bool)
deriving DecidableEq

/-- The `while (numBytes > 0)` loop of `readRegisterRegionAnyAddress`
(`utils.cpp` lines 97-113) plus the epilogue (lines 115-116), with explicit
fuel (one unit per loop iteration).  `writeRes` is the transport result of the
register-address write issued on the first iteration (line 99, bus held);
`reads k c` is the transport result of the k-th read when `c` bytes are
requested (line 106).  On the first iteration a failed address write returns
FAIL (line 101).  Each iteration requests `nChunk = min numBytes 32` bytes with
the bus-hold flag `numBytes > nChunk`, fails hard on a negative result, and
otherwise subtracts the returned count from `numBytes` (the subtraction cannot
wrap as long as the transport returns at most the requested count). -/
def rrLoop (writeRes : Int) (reads : Nat → Nat → Int) (nOrig : Nat) :
    Nat → Nat → Nat → Bool → List (Nat × Bool) → Option RegionRun
  | 0, _, _, _, _ => none
  | _ + 1, 0, _, _, log =>
      -- loop guard fails: readBytes = nOrig - numBytes, OK iff all bytes read
      some ⟨if nOrig - 0 = nOrig then kSTkErrOk else kSTkErrBusUnderRead, nOrig - 0, log⟩
  | fuel + 1, numBytes + 1, k, first, log =>
      if first ∧ writeRes < 0 then some ⟨kSTkErrFail, 0, log⟩
      else
        let nChunk := min (numBytes + 1) kDefaultBufferChunk
        let hold := decide (nChunk < numBytes + 1)
        let nReturned := reads k nChunk
        if nReturned < 0 then some ⟨kSTkErrFail, 0, log ++ [(nChunk, hold)]⟩
        else rrLoop writeRes reads nOrig fuel (numBytes + 1 - nReturned.toNat) (k + 1) false
               (log ++ [(nChunk, hold)])

/-- `readRegisterRegionAnyAddress` from `utils.cpp` lines 84-117.  `busInit`
models `CONFIG::i2c_port` being non-null, `dataNull` a null destination
buffer, `readBytes0` the caller initial (garbage) value of the `readBytes`
out-parameter, which the early returns at lines 86 and 89 leave untouched. -/
def readRegisterRegionAnyAddress (busInit dataNull : Bool) (writeRes : Int)
    (reads : Nat → Nat → Int) (numBytes readBytes0 fuel : Nat) : Option RegionRun :=
  if ¬busInit then some ⟨kSTkErrBusNotInit, readBytes0, []⟩
  else if dataNull then some ⟨kSTkErrBusNullBuffer, readBytes0, []⟩
  else rrLoop writeRes reads numBytes fuel numBytes 0 true []

/-- `readRegisterRegion` from `utils.cpp` lines 119-122: delegates to
`readRegisterRegionAnyAddress` with a one-byte register address. -/
def readRegisterRegion (busInit dataNull : Bool) (writeRes : Int)
    (reads : Nat → Nat → Int) (numBytes readBytes0 fuel : Nat) : Option RegionRun :=
  readRegisterRegionAnyAddress busInit dataNull writeRes reads numBytes readBytes0 fuel

/-- A transport whose every read delivers exactly the requested byte count. -/
def fullTransport : Nat → Nat → Int := fun _ c => (c : Int)

/-- Expected read log of a fully-delivering chunked read of `m` bytes (fuel
variant, structural on the first argument): each entry is the requested chunk
`min m 32` and the hold flag `chunk < remaining`. -/
def chunkLogF : Nat → Nat → List (Nat × Bool)
  | 0, _ => []
  | _ + 1, 0 => []
  | fuel + 1, m + 1 =>
      let c := min (m + 1) kDefaultBufferChunk
      (c, decide (c < m + 1)) :: chunkLogF fuel (m + 1 - c)

/-- Expected read log of a fully-delivering chunked read of `m` bytes. -/
def chunkLog (m : Nat) : List (Nat × Bool) := chunkLogF m m

/-- Property of a read log: every read but the last passes the bus-hold flag,
and the last read releases the bus. -/
def allButLastHold : List (Nat × Bool) → Bool
  | [] => true
  | [p] => p.2 == false
  | p :: q :: rest => p.2 && allButLastHold (q :: rest)

/-- `readRegisterByte` from `utils.cpp` lines 68-82.  `writeRes` is the result
of the one-byte register-address write (bus held), `readRes` the result of the
one-byte read, `deviceByte` the byte the device would deliver.  Returns the
error code and the byte stored into the out-parameter (none when the code path
leaves it unwritten). -/
def readRegisterByte (busInit : Bool) (writeRes readRes : Int) (deviceByte : Nat) :
    Int × Option Nat :=
  if ¬busInit then (kSTkErrBusNotInit, none)
  else if writeRes < 0 then (kSTkErrFail, none)
  else if readRes = 1 then (kSTkErrOk, some deviceByte)
  else (kSTkErrFail, none)

/-- `writeRegisterByte` from `utils.cpp` lines 124-135: a single two-byte
transaction; success requires exactly 2 bytes accepted (`result == 2`). -/
def writeRegisterByte (busInit : Bool) (writeRes : Int) : Int :=
  if ¬busInit then kSTkErrBusNotInit
  else if writeRes = 2 then kSTkErrOk
  else kSTkErrFail

/-- Truncation toward zero of a rational, the model of a C cast from a
floating value to a signed integer type (for in-range values). -/
def ratTrunc (q : ℚ) : Int := if 0 ≤ q then ⌊q⌋ else -⌊-q⌋

/-- Wrap of a signed integer into an unsigned byte (the C implicit
`int8_t → uint8_t` conversion, twos complement). -/
def byteOfInt8 (i : Int) : Nat := (i % 256).toNat

/-- Reinterpretation of a byte as a signed `int8_t` (the C cast
`(int8_t)rawScalar`). -/
def int8OfByte (b : Nat) : Int :=
  if b % 256 < 128 then (b % 256 : Int) else (b % 256 : Int) - 256

/-- Modelled from the spec: `kMinScalar` from the missing `sfeQwiicOtos.h`
header; the spec gives the accepted scalar range as [0.875, 1.125]. -/
def kMinScalar : ℚ := 875 / 1000

/-- Modelled from the spec: `kMaxScalar` from the missing `sfeQwiicOtos.h`
header; the spec gives the accepted scalar range as [0.875, 1.125]. -/
def kMaxScalar : ℚ := 1125 / 1000

/-- `sfeQwiicOtos::getLinearScalar` from `sfeQwiicOtos.cpp` lines 177-190:
reads the linear-scalar register via `readRegisterByte`; on ANY non-OK code it
returns `kSTkErrFail` (line 183), otherwise decodes
`((int8_t)rawScalar) * 0.001f + 1.0f`. -/
def getLinearScalar (busInit : Bool) (writeRes readRes : Int) (deviceByte : Nat) :
    Int × Option ℚ :=
  let r := readRegisterByte busInit writeRes readRes deviceByte
  if r.1 ≠ kSTkErrOk then (kSTkErrFail, none)
  else (kSTkErrOk, some ((int8OfByte (r.2.getD 0) : ℚ) * (1 / 1000) + 1))

/-- `sfeQwiicOtos::getAngularScalar` from `sfeQwiicOtos.cpp` lines 205-218:
textually identical to `getLinearScalar` up to the register address. -/
def getAngularScalar (busInit : Bool) (writeRes readRes : Int) (deviceByte : Nat) :
    Int × Option ℚ :=
  let r := readRegisterByte busInit writeRes readRes deviceByte
  if r.1 ≠ kSTkErrOk then (kSTkErrFail, none)
  else (kSTkErrOk, some ((int8OfByte (r.2.getD 0) : ℚ) * (1 / 1000) + 1))

/-- `sfeQwiicOtos::setLinearScalar` from `sfeQwiicOtos.cpp` lines 192-203:
rejects a scalar outside [kMinScalar, kMaxScalar] before any bus access,
otherwise encodes `(int8_t)((scalar - 1.0f) * 1000 + 0.5f)` and writes it.
The second component is the byte handed to `writeRegisterByte` (`none` when no
bus access is performed). -/
def setLinearScalar (busInit : Bool) (writeRes : Int) (scalar : ℚ) : Int × Option Nat :=
  if scalar < kMinScalar ∨ kMaxScalar < scalar then (kSTkErrFail, none)
  else
    let rawScalar := byteOfInt8 (ratTrunc ((scalar - 1) * 1000 + 1 / 2))
    (writeRegisterByte busInit writeRes, some rawScalar)

/-- `sfeQwiicOtos::setAngularScalar` from `sfeQwiicOtos.cpp` lines 220-231:
textually identical to `setLinearScalar` up to the register address. -/
def setAngularScalar (busInit : Bool) (writeRes : Int) (scalar : ℚ) : Int × Option Nat :=
  if scalar < kMinScalar ∨ kMaxScalar < scalar then (kSTkErrFail, none)
  else
    let rawScalar := byteOfInt8 (ratTrunc ((scalar - 1) * 1000 + 1 / 2))
    (writeRegisterByte busInit writeRes, some rawScalar)

/-- Linear unit selector `sfe_otos_linear_unit_t`.
Modelled from the spec: the enum lives in the missing `sfeQwiicOtos.h`. -/
inductive LinearUnit
  | meters
  | inches
deriving DecidableEq

/-- Angular unit selector `sfe_otos_angular_unit_t`.
Modelled from the spec: the enum lives in the missing `sfeQwiicOtos.h`. -/
inductive AngularUnit
  | radians
  | degrees
deriving DecidableEq

/-- Modelled from the spec: the meter-to-inch conversion constant
`kMeterToInch` of the missing `sfeQwiicOtos.h` (39.37 inches per meter, as an
exact rational; the invariant claims do not depend on the exact value). -/
def kMeterToInch : ℚ := 3937 / 100

/-- Modelled from the spec: the radian-to-degree conversion constant
`kRadianToDegree` of the missing `sfeQwiicOtos.h` (a rational approximation of
180/π; the invariant claims do not depend on the exact value). -/
def kRadianToDegree : ℚ := 572957795130823 / 10000000000000

/-- The unit-related member state of class `sfeQwiicOtos`: the two unit
selectors and their conversion factors. -/
structure OtosState where
  linearUnit : LinearUnit
  angularUnit : AngularUnit
  meterToUnit : ℚ
  radToUnit : ℚ
deriving DecidableEq

/-- The `sfeQwiicOtos` constructor (`sfeQwiicOtos.cpp` lines 16-21): inches
and degrees, with the matching conversion factors. -/
def initialOtosState : OtosState :=
  ⟨LinearUnit.inches, AngularUnit.degrees, kMeterToInch, kRadianToDegree⟩

/-- A bus or timing action performed by a register-protocol operation:
register write, register read, or a millisecond delay. -/
inductive DevOp
  | writeReg (reg val : Nat)
  | readReg (reg : Nat)
  | delayMs (ms : Nat)
deriving DecidableEq

/-- `sfeQwiicOtos::setLinearUnit` from `sfeQwiicOtos.cpp` lines 146-157:
returns early when the unit is already active, otherwise stores the unit and
recomputes the conversion factor.  The second component is the list of bus
accesses performed (the source performs none on either path). -/
def setLinearUnit (st : OtosState) (unit : LinearUnit) : OtosState × List DevOp :=
  if unit = st.linearUnit then (st, [])
  else
    ({ st with
        linearUnit := unit,
        meterToUnit := if unit = LinearUnit.meters then 1 else kMeterToInch }, [])

/-- `sfeQwiicOtos::setAngularUnit` from `sfeQwiicOtos.cpp` lines 164-175. -/
def setAngularUnit (st : OtosState) (unit : AngularUnit) : OtosState × List DevOp :=
  if unit = st.angularUnit then (st, [])
  else
    ({ st with
        angularUnit := unit,
        radToUnit := if unit = AngularUnit.radians then 1 else kRadianToDegree }, [])

/-- The conversion factor determined by a linear unit selector. -/
def linearFactor : LinearUnit → ℚ
  | LinearUnit.meters => 1
  | LinearUnit.inches => kMeterToInch

/-- The conversion factor determined by an angular unit selector. -/
def angularFactor : AngularUnit → ℚ
  | AngularUnit.radians => 1
  | AngularUnit.degrees => kRadianToDegree

/-- Invariant: each stored conversion factor matches its unit selector. -/
def UnitInv (st : OtosState) : Prop :=
  st.meterToUnit = linearFactor st.linearUnit ∧
  st.radToUnit = angularFactor st.angularUnit

/-- The operations that can modify the unit-related member state. -/
inductive UnitCmd
  | setLin (u : LinearUnit)
  | setAng (u : AngularUnit)

/-- Running a sequence of unit-selector operations on the member state. -/
def runUnitCmds (st : OtosState) : List UnitCmd → OtosState
  | [] => st
  | UnitCmd.setLin u :: rest => runUnitCmds (setLinearUnit st u).1 rest
  | UnitCmd.setAng u :: rest => runUnitCmds (setAngularUnit st u).1 rest

/-- Modelled from the spec: register address `kRegImuCalib` from the missing
`sfeQwiicOtos.h`; the claims depend only on its identity, not its value. -/
def kRegImuCalib : Nat := 0x06

/-- Modelled from the spec: register address `kRegSelfTest` from the missing
`sfeQwiicOtos.h`; the claims depend only on its identity, not its value. -/
def kRegSelfTest : Nat := 0x0F

/-- Outcome of a register-protocol state machine: error code, number of
register polls performed, and the ordered trace of bus/timing actions. -/
structure CalibRun where
  code : Int
  polls : Nat
  ops : List DevOp
deriving DecidableEq

/-- The polling loop of `sfeQwiicOtos::calibrateImu` (`sfeQwiicOtos.cpp` lines
113-129): counts down from the requested sample count, reading the calibration
register each time; a read error propagates, a zero value returns OK, and a
3 ms delay separates consecutive reads.  `reads k` gives the k-th
`readRegisterByte` outcome (error code, register value). -/
def calibPoll (reads : Nat → Int × Nat) : Nat → Nat → CalibRun
  | _, 0 => ⟨kSTkErrFail, 0, []⟩
  | k, n + 1 =>
      let r := reads k
      if r.1 ≠ kSTkErrOk then ⟨r.1, 1, [DevOp.readReg kRegImuCalib]⟩
      else if r.2 = 0 then ⟨kSTkErrOk, 1, [DevOp.readReg kRegImuCalib]⟩
      else
        let rest := calibPoll reads (k + 1) n
        ⟨rest.code, rest.polls + 1,
         DevOp.readReg kRegImuCalib :: DevOp.delayMs 3 :: rest.ops⟩

/-- `sfeQwiicOtos::calibrateImu` from `sfeQwiicOtos.cpp` lines 96-133: writes
the sample count, delays 3 ms, returns OK immediately when not waiting, and
otherwise polls up to `numSamples` times. -/
def calibrateImu (busInit : Bool) (writeRes : Int) (reads : Nat → Int × Nat)
    (numSamples : Nat) (waitUntilDone : Bool) : CalibRun :=
  let werr := writeRegisterByte busInit writeRes
  if werr ≠ kSTkErrOk then ⟨werr, 0, [DevOp.writeReg kRegImuCalib numSamples]⟩
  else
    let pre := [DevOp.writeReg kRegImuCalib numSamples, DevOp.delayMs 3]
    if ¬waitUntilDone then ⟨kSTkErrOk, 0, pre⟩
    else
      let r := calibPoll reads 0 numSamples
      ⟨r.code, r.polls, pre ++ r.ops⟩

/-- Outcome of the self-test state machine: error code, polls performed, the
self-test register value that the final pass/fail check inspects, and the
trace of bus/timing actions. -/
structure SelfTestRun where
  code : Int
  polls : Nat
  lastVal : Nat
  ops : List DevOp
deriving DecidableEq

/-- The polling loop of `sfeQwiicOtos::selfTest` (`sfeQwiicOtos.cpp` lines
75-93) together with the final pass check: up to `n` more iterations, each a
5 ms delay followed by a register read; a read error propagates, a clear
in-progress flag (bit 1) breaks out, and after the loop the result is OK iff
the pass flag (bit 2) of the last-read value is set.  `lastVal` carries the
value of `selfTest.value` across iterations. -/
def selfTestLoop (reads : Nat → Int × Nat) : Nat → Nat → Nat → SelfTestRun
  | 0, _, lastVal =>
      ⟨if Nat.testBit lastVal 2 then kSTkErrOk else kSTkErrFail, 0, lastVal, []⟩
  | n + 1, k, lastVal =>
      let r := reads k
      if r.1 ≠ kSTkErrOk then
        ⟨r.1, 1, lastVal, [DevOp.delayMs 5, DevOp.readReg kRegSelfTest]⟩
      else if ¬Nat.testBit r.2 1 then
        ⟨if Nat.testBit r.2 2 then kSTkErrOk else kSTkErrFail, 1, r.2,
         [DevOp.delayMs 5, DevOp.readReg kRegSelfTest]⟩
      else
        let rest := selfTestLoop reads n (k + 1) r.2
        ⟨rest.code, rest.polls + 1, rest.lastVal,
         DevOp.delayMs 5 :: DevOp.readReg kRegSelfTest :: rest.ops⟩

/-- `sfeQwiicOtos::selfTest` from `sfeQwiicOtos.cpp` lines 65-94: writes the
start bit (bit 0; the remaining bits of the stack value are modelled as zero),
then runs the polling loop for at most 10 attempts. -/
def selfTest (busInit : Bool) (writeRes : Int) (reads : Nat → Int × Nat) : SelfTestRun :=
  let werr := writeRegisterByte busInit writeRes
  if werr ≠ kSTkErrOk then ⟨werr, 0, 1, [DevOp.writeReg kRegSelfTest 1]⟩
  else
    let r := selfTestLoop reads 10 0 1
    ⟨r.code, r.polls, r.lastVal, DevOp.writeReg kRegSelfTest 1 :: r.ops⟩

/-- The trace of `n` self-test polling iterations: a 5 ms delay before each
register read. -/
def selfTestPollOps : Nat → List DevOp
  | 0 => []
  | n + 1 => DevOp.delayMs 5 :: DevOp.readReg kRegSelfTest :: selfTestPollOps n

/-- The C cast of a 16-bit word to `int16_t`: twos-complement
reinterpretation (the cast in `(int16_t)((rawData[1] << 8) | rawData[0])`,
`sfeQwiicOtos.cpp` lines 404-406). -/
def toSigned16 (w : Nat) : Int :=
  if w % 65536 < 32768 then (w % 65536 : Int) else (w % 65536 : Int) - 65536

/-- The two little-endian bytes of a signed 16-bit value, as produced by
`rawX & 0xFF` and `(rawX >> 8) & 0xFF` (`sfeQwiicOtos.cpp` lines 422-427):
the low and high byte of the twos-complement representation. -/
def bytesOfInt16 (v : Int) : Nat × Nat :=
  ((v % 65536).toNat % 256, (v % 65536).toNat / 256)

/-- `sfe_otos_pose2d_t`, the (x, y, heading) triple, over exact rationals. -/
structure Pose2D where
  x : ℚ
  y : ℚ
  h : ℚ

/-- `sfeQwiicOtos::regsToPose` from `sfeQwiicOtos.cpp` lines 401-412: decodes
three little-endian signed 16-bit values from a 6-byte block and scales each
by its fixed-point constant and the active unit factor.  `mToU` and `rToU` are
the member fields `_meterToUnit` and `_radToUnit`. -/
def regsToPose (raw : List Nat) (rawToXY rawToH mToU rToU : ℚ) : Pose2D :=
  { x := (toSigned16 (raw.getD 1 0 * 256 + raw.getD 0 0) : ℚ) * rawToXY * mToU
  , y := (toSigned16 (raw.getD 3 0 * 256 + raw.getD 2 0) : ℚ) * rawToXY * mToU
  , h := (toSigned16 (raw.getD 5 0 * 256 + raw.getD 4 0) : ℚ) * rawToH * rToU }

/-- `sfeQwiicOtos::poseToRegs` from `sfeQwiicOtos.cpp` lines 414-428: divides
each component by the active unit factor, scales to raw counts, casts to
`int16_t` (truncation toward zero) and splits into little-endian bytes. -/
def poseToRegs (pose : Pose2D) (xyToRaw hToRaw mToU rToU : ℚ) : List Nat :=
  let rawX := ratTrunc (pose.x * xyToRaw / mToU)
  let rawY := ratTrunc (pose.y * xyToRaw / mToU)
  let rawH := ratTrunc (pose.h * hToRaw / rToU)
  [(bytesOfInt16 rawX).1, (bytesOfInt16 rawX).2,
   (bytesOfInt16 rawY).1, (bytesOfInt16 rawY).2,
   (bytesOfInt16 rawH).1, (bytesOfInt16 rawH).2]

/-- The 6-byte register block holding three signed 16-bit raw values. -/
def rawPoseBytes (vx vy vh : Int) : List Nat :=
  [(bytesOfInt16 vx).1, (bytesOfInt16 vx).2,
   (bytesOfInt16 vy).1, (bytesOfInt16 vy).2,
   (bytesOfInt16 vh).1, (bytesOfInt16 vh).2]

/-! ### Lemmas about the chunked-read loop -/

/-- If from call index `k0` on every transport read delivers 0 bytes without
error, the loop makes no further progress and never returns. -/
lemma rrLoop_stall (writeRes : Int) (reads : Nat → Nat → Int) (nOrig k0 : Nat)
    (hw : 0 ≤ writeRes) (hz : ∀ j c, k0 ≤ j → reads j c = 0) :
    ∀ fuel m k, k0 ≤ k → 0 < m → ∀ (first : Bool) log,
      rrLoop writeRes reads nOrig fuel m k first log = none := by
  intro fuel
  induction fuel with
  | zero => intro m k _ _ first log; rfl
  | succ fuel ih =>
      intro m k hk hm first log
      match m, hm with
      | m + 1, _ =>
        have hcond : ¬(first = true ∧ writeRes < 0) := by
          rintro ⟨-, hlt⟩; omega
        simp only [rrLoop, hz k _ hk, if_neg hcond]
        norm_num
        exact ih (m + 1) (k + 1) (Nat.le_succ_of_le hk) (Nat.succ_pos m) false _

/-- The chunk log of zero remaining bytes is empty, for any fuel. -/
lemma chunkLogF_zero : ∀ fuel, chunkLogF fuel 0 = [] := by
  intro fuel; cases fuel <;> rfl

/-- The chunk log does not depend on the fuel, given enough of it. -/
lemma chunkLogF_congr : ∀ f1 f2 m, m ≤ f1 → m ≤ f2 → chunkLogF f1 m = chunkLogF f2 m := by
  intro f1
  induction f1 with
  | zero =>
      intro f2 m hm1 _
      interval_cases m
      rw [chunkLogF_zero, chunkLogF_zero]
  | succ f1 ih =>
      intro f2 m hm1 hm2
      match m with
      | 0 => rw [chunkLogF_zero, chunkLogF_zero]
      | m + 1 =>
        match f2, hm2 with
        | f2 + 1, _ =>
          simp only [chunkLogF]
          have hc : 1 ≤ min (m + 1) kDefaultBufferChunk := by
            simp [kDefaultBufferChunk]
          rw [ih f2 (m + 1 - min (m + 1) kDefaultBufferChunk) (by omega) (by omega)]

/-- On a transport delivering every requested byte, the loop reads the whole
region, reports OK with `readBytes = nOrig`, and its read log extends by
exactly the expected chunk sequence. -/
lemma rrLoop_full (writeRes : Int) (nOrig : Nat) (hw : 0 ≤ writeRes) :
    ∀ fuel m, m < fuel → ∀ k (first : Bool) log,
      rrLoop writeRes fullTransport nOrig fuel m k first log
        = some ⟨kSTkErrOk, nOrig, log ++ chunkLogF fuel m⟩ := by
  intro fuel
  induction fuel with
  | zero => intro m hm; omega
  | succ fuel ih =>
      intro m hm k first log
      match m with
      | 0 => simp [rrLoop, chunkLogF_zero]
      | m + 1 =>
        have hcond : ¬(first = true ∧ writeRes < 0) := by
          rintro ⟨-, hlt⟩; omega
        have hc : 1 ≤ min (m + 1) kDefaultBufferChunk := by
          simp [kDefaultBufferChunk]
        simp only [rrLoop, if_neg hcond, fullTransport, Int.toNat_natCast]
        norm_num
        rw [ih (m + 1 - min (m + 1) kDefaultBufferChunk) (by omega) (k + 1) false _]
        simp only [chunkLogF]
        simp [List.append_assoc]
        intro h
        rcases h with h | h <;> omega

/-- The expected chunk sequence for `m` bytes has `⌈m / 32⌉` entries. -/
lemma chunkLogF_length : ∀ fuel m, m ≤ fuel →
    (chunkLogF fuel m).length = (m + 31) / 32 := by
  intro fuel
  induction fuel with
  | zero =>
      intro m hm
      interval_cases m
      rw [chunkLogF_zero]
      rfl
  | succ fuel ih =>
      intro m hm
      match m with
      | 0 => rw [chunkLogF_zero]; rfl
      | m + 1 =>
        simp only [chunkLogF, List.length_cons]
        rw [ih (m + 1 - min (m + 1) kDefaultBufferChunk)
          (by simp only [kDefaultBufferChunk]; omega)]
        simp only [kDefaultBufferChunk]
        omega

/-- The expected chunk sequence is nonempty when bytes remain. -/
lemma chunkLogF_ne_nil : ∀ fuel m, 1 ≤ m → m ≤ fuel →
    ∃ p rest, chunkLogF fuel m = p :: rest := by
  intro fuel m h1 h2
  cases fuel with
  | zero => omega
  | succ fuel =>
      cases m with
      | zero => omega
      | succ m => exact ⟨_, _, rfl⟩

/-- In the expected chunk sequence, every read but the last passes the
bus-hold flag and the last read releases the bus. -/
lemma chunkLogF_holds : ∀ fuel m, 1 ≤ m → m ≤ fuel →
    allButLastHold (chunkLogF fuel m) = true := by
  intro fuel
  induction fuel with
  | zero => intro m h1 h2; omega
  | succ fuel ih =>
      intro m h1 h2
      match m with
      | m + 1 =>
        by_cases hsmall : m + 1 ≤ kDefaultBufferChunk
        · have hmin : min (m + 1) kDefaultBufferChunk = m + 1 := Nat.min_eq_left hsmall
          simp only [chunkLogF, hmin]
          have : m + 1 - (m + 1) = 0 := Nat.sub_self (m + 1)
          rw [this, chunkLogF_zero]
          simp [allButLastHold]
        · have hbig : kDefaultBufferChunk < m + 1 := by omega
          have hmin : min (m + 1) kDefaultBufferChunk = kDefaultBufferChunk :=
            Nat.min_eq_right (by omega)
          simp only [chunkLogF, hmin]
          obtain ⟨p, rest, hrest⟩ :=
            chunkLogF_ne_nil fuel (m + 1 - kDefaultBufferChunk)
              (by simp only [kDefaultBufferChunk] at hbig ⊢; omega)
              (by simp only [kDefaultBufferChunk] at hbig ⊢; omega)
          rw [hrest]
          have hih := ih (m + 1 - kDefaultBufferChunk)
            (by simp only [kDefaultBufferChunk] at hbig ⊢; omega)
            (by simp only [kDefaultBufferChunk] at hbig ⊢; omega)
          rw [hrest] at hih
          simp only [allButLastHold, hih, Bool.and_true]
          simp [hbig]

/-- With a transport whose reads either fail or deliver at least one byte,
the loop returns within `numBytes + 1` iterations. -/
lemma rrLoop_progress (writeRes : Int) (reads : Nat → Nat → Int) (nOrig : Nat)
    (hpos : ∀ k c, 1 ≤ c → reads k c < 0 ∨ 1 ≤ reads k c) :
    ∀ fuel m, m < fuel → ∀ k (first : Bool) log,
      (rrLoop writeRes reads nOrig fuel m k first log).isSome = true := by
  intro fuel
  induction fuel with
  | zero => intro m hm; omega
  | succ fuel ih =>
      intro m hm k first log
      match m with
      | 0 => simp [rrLoop]
      | m + 1 =>
        simp only [rrLoop]
        split
        · rfl
        · split
          · rfl
          · rename_i hneg
            have hret := hpos k (min (m + 1) kDefaultBufferChunk) (by simp [kDefaultBufferChunk])
            have h1 : 1 ≤ reads k (min (m + 1) kDefaultBufferChunk) := by
              rcases hret with h | h
              · exact absurd h hneg
              · exact h
            exact ih (m + 1 - (reads k (min (m + 1) kDefaultBufferChunk)).toNat)
              (by omega) (k + 1) false _

/-- The stall-after-one-byte transport used to exhibit non-termination: the
first read delivers one byte, every later read delivers zero bytes. -/
lemma rrLoop_stall_after_first (fuel : Nat) :
    rrLoop 1 (fun k _ => if k = 0 then 1 else 0) 2 fuel 2 0 true [] = none := by
  match fuel with
  | 0 => rfl
  | fuel + 1 =>
    have h1 : rrLoop 1 (fun k _ => if k = 0 then 1 else 0) 2 (fuel + 1) 2 0 true []
        = rrLoop 1 (fun k _ => if k = 0 then 1 else 0) 2 fuel 1 1 false [(2, false)] := by
      simp [rrLoop, kDefaultBufferChunk, kSTkErrFail, kSTkErrOk]
    rw [h1]
    exact rrLoop_stall 1 (fun k _ => if k = 0 then 1 else 0) 2 1 (by norm_num)
      (fun j c hj => by simp [Nat.pos_iff_ne_zero.mp hj]) fuel 1 1 (le_refl 1)
      (by norm_num) false _

/-- C1: the claim says a short total read (reads delivering fewer total bytes
than requested, none failing) makes `readRegisterRegion` /
`readRegisterRegionAnyAddress` return UNDER_READ with `readBytes` holding the
accumulated count.  In the code the `while (numBytes > 0)` loop only exits
once every requested byte has arrived, so on a transport that keeps
delivering 0 bytes without error the call never returns at all (for every
fuel bound the loop is still running), and the UNDER_READ epilogue is
unreachable. -/
theorem readRegion_underRead_never_observed :
    ∀ fuel, readRegisterRegion true false 1 (fun _ _ => 0) 1 0 fuel = none := by
  intro fuel
  show rrLoop 1 (fun _ _ => 0) 1 fuel 1 0 true [] = none
  exact rrLoop_stall 1 (fun _ _ => 0) 1 0 (by norm_num) (fun j c _ => rfl)
    fuel 1 0 (Nat.zero_le 0) (by norm_num) true []

/-- C5 counterexample: a successful `readRegisterRegion` call with
`numBytes = 2 ≤ 32` that performs two transport reads, because the transport
delivers the region one byte at a time; the claim as stated
("exactly one underlying transport read" for every successful call with
`numBytes ≤ 32`) is false at this input. -/
theorem readRegion_shortDelivery_twoReads_cex :
    readRegisterRegion true false 1 (fun _ _ => 1) 2 0 5
      = some ⟨kSTkErrOk, 2, [(2, false), (1, false)]⟩
    ∧ [((2 : Nat), false), ((1 : Nat), false)].length ≠ 1 := by decide

/-- C5 (amended): for every successful `readRegisterRegion` call in which
each transport read delivers the full requested chunk, the call performs
exactly `⌈numBytes / 32⌉` transport reads, each requesting at most 32 bytes;
every read but the last passes the bus-hold flag to the transport and the
last read releases the bus. -/
theorem readRegion_chunk_counts (n fuel : Nat) (h1 : 0 < n) (h2 : n < fuel) :
    readRegisterRegion true false 1 fullTransport n 0 fuel
      = some ⟨kSTkErrOk, n, chunkLog n⟩
    ∧ (chunkLog n).length = (n + kDefaultBufferChunk - 1) / kDefaultBufferChunk
    ∧ allButLastHold (chunkLog n) = true := by
  refine ⟨?_, ?_, ?_⟩
  · show rrLoop 1 fullTransport n fuel n 0 true [] = _
    rw [rrLoop_full 1 n (by norm_num) fuel n h2 0 true []]
    rw [chunkLog, chunkLogF_congr fuel n n (by omega) (le_refl n)]
    rfl
  · rw [chunkLog, chunkLogF_length n n (le_refl n)]
    simp only [kDefaultBufferChunk]
    omega
  · exact chunkLogF_holds n n h1 (le_refl n)

/-- C5 witness: a 40-byte read on a fully-delivering transport succeeds with
two transport reads, `⌈40 / 32⌉ = 2`, the first holding the bus and the
second releasing it. -/
theorem readRegion_chunk_counts_witness :
    readRegisterRegion true false 1 fullTransport 40 0 41
      = some ⟨kSTkErrOk, 40, chunkLog 40⟩
    ∧ (chunkLog 40).length = (40 + kDefaultBufferChunk - 1) / kDefaultBufferChunk
    ∧ allButLastHold (chunkLog 40) = true :=
  readRegion_chunk_counts 40 41 (by decide) (by decide)

/-- C10 counterexample: the claim says the loop terminates whenever every
read errors or returns between 0 and the requested chunk size; but on the
transport whose first read delivers 1 byte and whose later reads deliver 0
bytes (all counts within bounds, no errors), a 2-byte
`readRegisterRegionAnyAddress` never returns for any fuel bound. -/
theorem readRegion_zeroRead_nonterminating_cex :
    ¬ ∃ fuel r, readRegisterRegionAnyAddress true false 1
        (fun k _ => if k = 0 then 1 else 0) 2 0 fuel = some r := by
  rintro ⟨fuel, r, hr⟩
  have h : readRegisterRegionAnyAddress true false 1
      (fun k _ => if k = 0 then 1 else 0) 2 0 fuel = none :=
    rrLoop_stall_after_first fuel
  rw [h] at hr
  exact Option.noConfusion hr

/-- C10 (amended): `readRegisterRegionAnyAddress` terminates — returns some
error code within `numBytes + 1` loop iterations — for every transport
behavior in which each blocking read either reports an error or returns at
least 1 and at most the requested chunk size bytes; with zero-byte successful
reads permitted the loop can run forever. -/
theorem readRegion_terminates (busInit dataNull : Bool) (writeRes : Int)
    (reads : Nat → Nat → Int) (numBytes readBytes0 fuel : Nat)
    (hpos : ∀ k c, 1 ≤ c → reads k c < 0 ∨ 1 ≤ reads k c)
    (hfuel : numBytes < fuel) :
    (readRegisterRegionAnyAddress busInit dataNull writeRes reads
        numBytes readBytes0 fuel).isSome = true := by
  rw [readRegisterRegionAnyAddress]
  split
  · rfl
  · split
    · rfl
    · exact rrLoop_progress writeRes reads numBytes hpos fuel numBytes hfuel 0 true []

/-- C10 witness: on a transport that always delivers exactly one byte, a
3-byte read returns within 4 iterations. -/
theorem readRegion_terminates_witness :
    (∀ k c : Nat, 1 ≤ c → ((fun _ _ => (1 : Int)) k c < 0 ∨ 1 ≤ (fun _ _ => (1 : Int)) k c))
    ∧ (readRegisterRegionAnyAddress true false 1 (fun _ _ => (1 : Int)) 3 0 4).isSome = true :=
  ⟨fun _ _ _ => Or.inr (le_refl 1),
   readRegion_terminates true false 1 (fun _ _ => (1 : Int)) 3 0 4
     (fun _ _ _ => Or.inr (le_refl 1)) (by decide)⟩

/-- C2 counterexample: with the bus session absent, `readRegisterByte`
returns BUS_NOT_INIT, but `getLinearScalar` and `getAngularScalar` return
FAIL, a different code — the claim that they pass the transaction layer
code upward unchanged is false at this input. -/
theorem scalarGetters_propagate_cex :
    (readRegisterByte false 1 1 0).1 = kSTkErrBusNotInit
    ∧ (getLinearScalar false 1 1 0).1 = kSTkErrFail
    ∧ (getAngularScalar false 1 1 0).1 = kSTkErrFail
    ∧ kSTkErrFail ≠ kSTkErrBusNotInit := by decide

/-- C2 (amended): `getLinearScalar` and `getAngularScalar` collapse every
non-OK code from `readRegisterByte` (BUS_NOT_INIT, FAIL, ...) to the single
code FAIL instead of passing it upward unchanged. -/
theorem scalarGetters_collapse_errors (busInit : Bool) (writeRes readRes : Int) (b : Nat)
    (h : (readRegisterByte busInit writeRes readRes b).1 ≠ kSTkErrOk) :
    (getLinearScalar busInit writeRes readRes b).1 = kSTkErrFail
    ∧ (getAngularScalar busInit writeRes readRes b).1 = kSTkErrFail := by
  constructor <;> simp [getLinearScalar, getAngularScalar, h]

/-- C2 witness: the bus-not-initialized case instantiates the amended
statement. -/
theorem scalarGetters_collapse_errors_witness :
    (readRegisterByte false 1 1 0).1 ≠ kSTkErrOk
    ∧ (getLinearScalar false 1 1 0).1 = kSTkErrFail
    ∧ (getAngularScalar false 1 1 0).1 = kSTkErrFail :=
  ⟨by decide, (scalarGetters_collapse_errors false 1 1 0 (by decide)).1,
   (scalarGetters_collapse_errors false 1 1 0 (by decide)).2⟩

/-- C3 counterexample: for the in-range scalar 0.9 the code computes
`(int8_t)((0.9 - 1.0) * 1000 + 0.5)`, i.e. truncation toward zero of -99.5,
which is -99 (byte 0x9D = 157); `round((0.9 - 1.0) * 1000) = -100` encodes as
byte 0x9C = 156 — the claimed encoding law fails below 1.0. -/
theorem scalarEncode_round_cex :
    (setLinearScalar true 2 (9 / 10)).2 = some 157
    ∧ byteOfInt8 (round (((9 : ℚ) / 10 - 1) * 1000)) = 156
    ∧ (157 : Nat) ≠ 156 := by
  refine ⟨?_, ?_, by decide⟩
  · norm_num [setLinearScalar, kMinScalar, kMaxScalar, ratTrunc, byteOfInt8]; decide
  · norm_num [byteOfInt8, round_eq]; decide

/-- C3 (amended): for every in-range scalar `s` the byte written by
`setLinearScalar` / `setAngularScalar` is `(s - 1) * 1000 + 1/2` truncated
toward zero, encoded as a signed byte; this agrees with
`round((s - 1) * 1000)` for all `s ≥ 1.0` (the truncation differs from
rounding only below 1.0).  For every stored byte `b`,
`getLinearScalar` / `getAngularScalar` decode it as
`(int8_t)b * 0.001 + 1.0` exactly as claimed. -/
theorem scalarCodec (s : ℚ) (hmin : kMinScalar ≤ s) (hmax : s ≤ kMaxScalar) :
    (setLinearScalar true 2 s).2 = some (byteOfInt8 (ratTrunc ((s - 1) * 1000 + 1 / 2)))
    ∧ (setAngularScalar true 2 s).2 = some (byteOfInt8 (ratTrunc ((s - 1) * 1000 + 1 / 2)))
    ∧ (1 ≤ s → ratTrunc ((s - 1) * 1000 + 1 / 2) = round ((s - 1) * 1000))
    ∧ ∀ b : Nat,
        (getLinearScalar true 1 1 b).2 = some ((int8OfByte b : ℚ) * (1 / 1000) + 1)
        ∧ (getAngularScalar true 1 1 b).2 = some ((int8OfByte b : ℚ) * (1 / 1000) + 1) := by
  have hno : ¬(s < kMinScalar ∨ kMaxScalar < s) := by
    push_neg
    exact ⟨hmin, hmax⟩
  refine ⟨by simp [setLinearScalar, hno], by simp [setAngularScalar, hno], ?_, ?_⟩
  · intro h1
    have hx : (0 : ℚ) ≤ (s - 1) * 1000 + 1 / 2 := by nlinarith
    rw [ratTrunc, if_pos hx, round_eq]
  · intro b
    constructor <;> simp [getLinearScalar, getAngularScalar, readRegisterByte]

/-- C3 witness: `setLinearScalar(1.10)` writes byte 0x64 = 100, and a device
reporting 0x64 decodes to 1.100. -/
theorem scalarCodec_witness :
    kMinScalar ≤ (11 / 10 : ℚ) ∧ (11 / 10 : ℚ) ≤ kMaxScalar
    ∧ (setLinearScalar true 2 (11 / 10)).2 = some 100
    ∧ (getLinearScalar true 1 1 100).2 = some (11 / 10) := by
  have hmin : kMinScalar ≤ (11 / 10 : ℚ) := by norm_num [kMinScalar]
  have hmax : (11 / 10 : ℚ) ≤ kMaxScalar := by norm_num [kMaxScalar]
  have h := scalarCodec (11 / 10) hmin hmax
  refine ⟨hmin, hmax, ?_, ?_⟩
  · rw [h.1]
    norm_num [ratTrunc, byteOfInt8]
    decide
  · rw [(h.2.2.2 100).1]
    norm_num [int8OfByte]

/-- C4: every scalar strictly outside [kMinScalar, kMaxScalar] is rejected by
`setLinearScalar` / `setAngularScalar` with FAIL and no bus access (no byte is
handed to `writeRegisterByte`); at the exact boundary values the input is
accepted and a register write is issued. -/
theorem scalarBounds (s : ℚ) (h : s < kMinScalar ∨ kMaxScalar < s) :
    setLinearScalar true 2 s = (kSTkErrFail, none)
    ∧ setAngularScalar true 2 s = (kSTkErrFail, none)
    ∧ (setLinearScalar true 2 kMinScalar).2.isSome = true
    ∧ (setLinearScalar true 2 kMaxScalar).2.isSome = true
    ∧ (setAngularScalar true 2 kMinScalar).2.isSome = true
    ∧ (setAngularScalar true 2 kMaxScalar).2.isSome = true := by
  refine ⟨by simp [setLinearScalar, h], by simp [setAngularScalar, h], ?_, ?_, ?_, ?_⟩
  all_goals norm_num [setLinearScalar, setAngularScalar, kMinScalar, kMaxScalar]

/-- C4 witness: the out-of-range scalar 2.0 instantiates the statement. -/
theorem scalarBounds_witness :
    ((2 : ℚ) < kMinScalar ∨ kMaxScalar < (2 : ℚ))
    ∧ setLinearScalar true 2 (2 : ℚ) = (kSTkErrFail, none)
    ∧ setAngularScalar true 2 (2 : ℚ) = (kSTkErrFail, none) := by
  have h : (2 : ℚ) < kMinScalar ∨ kMaxScalar < (2 : ℚ) :=
    Or.inr (by norm_num [kMaxScalar])
  exact ⟨h, (scalarBounds 2 h).1, (scalarBounds 2 h).2.1⟩

/-- `setLinearUnit` reestablishes the factor/selector invariant. -/
lemma setLinearUnit_inv (st : OtosState) (h : UnitInv st) (u : LinearUnit) :
    UnitInv (setLinearUnit st u).1 := by
  rw [setLinearUnit]
  split
  · exact h
  · refine ⟨?_, h.2⟩
    cases u <;> simp [linearFactor]

/-- `setAngularUnit` reestablishes the factor/selector invariant. -/
lemma setAngularUnit_inv (st : OtosState) (h : UnitInv st) (u : AngularUnit) :
    UnitInv (setAngularUnit st u).1 := by
  rw [setAngularUnit]
  split
  · exact h
  · refine ⟨h.1, ?_⟩
    cases u <;> simp [angularFactor]

/-- C6: starting from any state satisfying the selector/factor invariant
(established by the constructor), every sequence of unit-selector operations
preserves it — the stored linear factor always equals the factor determined
by the stored linear unit (1 for meters, the meter-to-inch constant for
inches), likewise for the angular pair; and setting a unit to its
already-active value returns the state unchanged and performs no bus
access. -/
theorem unitFactorInvariant (st : OtosState) (h : UnitInv st) (cmds : List UnitCmd) :
    UnitInv (runUnitCmds st cmds)
    ∧ setLinearUnit st st.linearUnit = (st, [])
    ∧ setAngularUnit st st.angularUnit = (st, [])
    ∧ UnitInv initialOtosState := by
  refine ⟨?_, ?_, ?_, ⟨rfl, rfl⟩⟩
  · induction cmds generalizing st with
    | nil => exact h
    | cons c rest ih =>
        cases c with
        | setLin u => exact ih _ (setLinearUnit_inv st h u)
        | setAng u => exact ih _ (setAngularUnit_inv st h u)
  · rw [setLinearUnit, if_pos rfl]
  · rw [setAngularUnit, if_pos rfl]

/-- C6 witness: the constructor state satisfies the invariant, it is
preserved by a unit change, and the no-op unit set returns the state
unchanged with no bus access. -/
theorem unitFactorInvariant_witness :
    UnitInv initialOtosState
    ∧ UnitInv (runUnitCmds initialOtosState [UnitCmd.setLin LinearUnit.meters])
    ∧ setLinearUnit initialOtosState initialOtosState.linearUnit
        = (initialOtosState, []) := by
  have h0 : UnitInv initialOtosState := ⟨rfl, rfl⟩
  have h := unitFactorInvariant initialOtosState h0 [UnitCmd.setLin LinearUnit.meters]
  exact ⟨h0, h.1, h.2.1⟩

/-- The calibration polling loop performs at most its countdown bound of
register reads. -/
lemma calibPoll_le (reads : Nat → Int × Nat) : ∀ n k, (calibPoll reads k n).polls ≤ n := by
  intro n
  induction n with
  | zero => intro k; exact Nat.le_refl 0
  | succ n ih =>
      intro k
      simp only [calibPoll]
      split
      · exact Nat.le_add_left 1 n
      · split
        · exact Nat.le_add_left 1 n
        · exact Nat.succ_le_succ (ih (k + 1))

/-- If every poll within the bound reads OK but nonzero, the loop exhausts
the bound and fails. -/
lemma calibPoll_exhaust (reads : Nat → Int × Nat) :
    ∀ n k, (∀ i, i < n → (reads (k + i)).1 = kSTkErrOk ∧ (reads (k + i)).2 ≠ 0) →
      (calibPoll reads k n).code = kSTkErrFail ∧ (calibPoll reads k n).polls = n := by
  intro n
  induction n with
  | zero => intro k _; exact ⟨rfl, rfl⟩
  | succ n ih =>
      intro k h
      have h0 := h 0 (Nat.succ_pos n)
      rw [Nat.add_zero] at h0
      have hrest := ih (k + 1) (fun i hi => by
        have := h (i + 1) (Nat.succ_lt_succ hi)
        rwa [show k + (i + 1) = k + 1 + i by omega] at this)
      simp only [calibPoll, h0.1, h0.2]
      norm_num [kSTkErrOk]
      exact ⟨hrest.1, hrest.2⟩

/-- If the j-th poll (within the bound) reads OK and zero, and every earlier
poll reads OK but nonzero, the loop returns OK after exactly j + 1 polls. -/
lemma calibPoll_zero (reads : Nat → Int × Nat) :
    ∀ j n k, j < n →
      (∀ i, i < j → (reads (k + i)).1 = kSTkErrOk ∧ (reads (k + i)).2 ≠ 0) →
      (reads (k + j)).1 = kSTkErrOk → (reads (k + j)).2 = 0 →
      (calibPoll reads k n).code = kSTkErrOk ∧ (calibPoll reads k n).polls = j + 1 := by
  intro j
  induction j with
  | zero =>
      intro n k hn _ hok hzero
      rw [Nat.add_zero] at hok hzero
      match n, hn with
      | n + 1, _ =>
        simp only [calibPoll, hok, hzero]
        norm_num [kSTkErrOk]
  | succ j ih =>
      intro n k hn hpre hok hzero
      match n, hn with
      | n + 1, hn2 =>
        have h0 := hpre 0 (Nat.succ_pos j)
        rw [Nat.add_zero] at h0
        have hrest := ih n (k + 1) (Nat.lt_of_succ_lt_succ hn2)
          (fun i hi => by
            have := hpre (i + 1) (Nat.succ_lt_succ hi)
            rwa [show k + (i + 1) = k + 1 + i by omega] at this)
          (by rwa [show k + 1 + j = k + (j + 1) by omega])
          (by rwa [show k + 1 + j = k + (j + 1) by omega])
        simp only [calibPoll, h0.1, h0.2]
        norm_num [kSTkErrOk]
        exact ⟨hrest.1, hrest.2⟩

/-- C7: `calibrateImu` writes the sample count to the calibration register
and delays 3 ms; a non-blocking call then returns OK with no further bus
access, regardless of device state; a blocking call polls the register at
most `numSamples` times, returns OK as soon as a poll reads zero (after
`j + 1` polls when the first zero is at poll index `j`), and FAIL when the
bound is exhausted with every poll reading a nonzero value. -/
theorem calibrateImu_spec (numSamples : Nat) (reads : Nat → Int × Nat) :
    calibrateImu true 2 reads numSamples false
      = ⟨kSTkErrOk, 0, [DevOp.writeReg kRegImuCalib numSamples, DevOp.delayMs 3]⟩
    ∧ (calibrateImu true 2 reads numSamples true).polls ≤ numSamples
    ∧ ((∀ i, i < numSamples → (reads i).1 = kSTkErrOk ∧ (reads i).2 ≠ 0) →
        (calibrateImu true 2 reads numSamples true).code = kSTkErrFail
        ∧ (calibrateImu true 2 reads numSamples true).polls = numSamples)
    ∧ (∀ j, j < numSamples →
        (∀ i, i < j → (reads i).1 = kSTkErrOk ∧ (reads i).2 ≠ 0) →
        (reads j).1 = kSTkErrOk → (reads j).2 = 0 →
        (calibrateImu true 2 reads numSamples true).code = kSTkErrOk
        ∧ (calibrateImu true 2 reads numSamples true).polls = j + 1)
    ∧ (calibrateImu true 2 reads numSamples true).ops.take 2
        = [DevOp.writeReg kRegImuCalib numSamples, DevOp.delayMs 3] := by
  have hw : writeRegisterByte true 2 = kSTkErrOk := rfl
  refine ⟨?_, ?_, ?_, ?_, ?_⟩
  · simp [calibrateImu, hw]
  · simp only [calibrateImu, hw]
    norm_num [kSTkErrOk]
    exact calibPoll_le reads numSamples 0
  · intro h
    have := calibPoll_exhaust reads numSamples 0 (fun i hi => by
      have := h i hi
      rwa [Nat.zero_add])
    simp only [calibrateImu, hw]
    norm_num [kSTkErrOk]
    exact this
  · intro j hj hpre hok hzero
    have := calibPoll_zero reads j numSamples 0 hj
      (fun i hi => by have := hpre i hi; rwa [Nat.zero_add])
      (by rwa [Nat.zero_add]) (by rwa [Nat.zero_add])
    simp only [calibrateImu, hw]
    norm_num [kSTkErrOk]
    exact this
  · simp [calibrateImu, hw]

/-- C7 witness: `calibrateImu(5, true)` with the calibration register reading
3, 2, 1, 0 on successive polls returns OK after the fourth poll; the
non-blocking call returns OK right after the write and 3 ms settle delay. -/
theorem calibrateImu_spec_witness :
    (calibrateImu true 2 (fun k => (kSTkErrOk, 3 - k)) 5 true).code = kSTkErrOk
    ∧ (calibrateImu true 2 (fun k => (kSTkErrOk, 3 - k)) 5 true).polls = 4
    ∧ calibrateImu true 2 (fun k => (kSTkErrOk, 3 - k)) 5 false
      = ⟨kSTkErrOk, 0, [DevOp.writeReg kRegImuCalib 5, DevOp.delayMs 3]⟩ := by
  have h := calibrateImu_spec 5 (fun k => (kSTkErrOk, 3 - k))
  have h4 := h.2.2.2.1 3 (by decide) (by decide) (by decide) (by decide)
  exact ⟨h4.1, h4.2, h.1⟩

/-- The self-test polling loop performs at most its attempt bound of reads. -/
lemma selfTestLoop_le (reads : Nat → Int × Nat) :
    ∀ n k lv, (selfTestLoop reads n k lv).polls ≤ n := by
  intro n
  induction n with
  | zero => intro k lv; exact Nat.le_refl 0
  | succ n ih =>
      intro k lv
      simp only [selfTestLoop]
      split
      · exact Nat.le_add_left 1 n
      · split
        · exact Nat.le_add_left 1 n
        · exact Nat.succ_le_succ (ih (k + 1) _)

/-- When every read within the bound succeeds, the loop result code is OK
exactly when the pass flag (bit 2) of the value it last read is set. -/
lemma selfTestLoop_code (reads : Nat → Int × Nat) :
    ∀ n k lv, (∀ i, i < n → (reads (k + i)).1 = kSTkErrOk) →
      (selfTestLoop reads n k lv).code
        = if Nat.testBit (selfTestLoop reads n k lv).lastVal 2 then kSTkErrOk
          else kSTkErrFail := by
  intro n
  induction n with
  | zero => intro k lv _; rfl
  | succ n ih =>
      intro k lv h
      have h0 := h 0 (Nat.succ_pos n)
      rw [Nat.add_zero] at h0
      simp only [selfTestLoop, h0]
      norm_num [kSTkErrOk]
      split
      · rfl
      · exact ih (k + 1) _ (fun i hi => by
          have := h (i + 1) (Nat.succ_lt_succ hi)
          rwa [show k + (i + 1) = k + 1 + i by omega] at this)

/-- When every read within the bound succeeds with the in-progress flag
(bit 1) set, the loop exhausts all attempts and last reads the final poll
value. -/
lemma selfTestLoop_exhaust (reads : Nat → Int × Nat) :
    ∀ n k lv, 1 ≤ n → (∀ i, i < n → (reads (k + i)).1 = kSTkErrOk) →
      (∀ i, i < n → Nat.testBit (reads (k + i)).2 1 = true) →
      (selfTestLoop reads n k lv).polls = n
      ∧ (selfTestLoop reads n k lv).lastVal = (reads (k + (n - 1))).2 := by
  intro n
  induction n with
  | zero => intro k lv h; omega
  | succ n ih =>
      intro k lv _ hok hip
      have h0 := hok 0 (Nat.succ_pos n)
      have h1 := hip 0 (Nat.succ_pos n)
      rw [Nat.add_zero] at h0 h1
      simp only [selfTestLoop, h0, h1]
      norm_num [kSTkErrOk]
      cases n with
      | zero => exact ⟨rfl, rfl⟩
      | succ n =>
          have hrest := ih (k + 1) (reads k).2 (Nat.succ_pos n)
            (fun i hi => by
              have := hok (i + 1) (Nat.succ_lt_succ hi)
              rwa [show k + (i + 1) = k + 1 + i by omega] at this)
            (fun i hi => by
              have := hip (i + 1) (Nat.succ_lt_succ hi)
              rwa [show k + (i + 1) = k + 1 + i by omega] at this)
          refine ⟨by rw [hrest.1], ?_⟩
          rw [hrest.2]
          congr 2
          omega

/-- When the j-th read (within the bound) succeeds with the in-progress flag
clear, and every earlier read succeeds with it set, the loop stops after
exactly j + 1 reads and last reads the j-th poll value. -/
lemma selfTestLoop_break (reads : Nat → Int × Nat) :
    ∀ j n k lv, j < n → (∀ i, i ≤ j → (reads (k + i)).1 = kSTkErrOk) →
      (∀ i, i < j → Nat.testBit (reads (k + i)).2 1 = true) →
      Nat.testBit (reads (k + j)).2 1 = false →
      (selfTestLoop reads n k lv).polls = j + 1
      ∧ (selfTestLoop reads n k lv).lastVal = (reads (k + j)).2 := by
  intro j
  induction j with
  | zero =>
      intro n k lv hn hok _ hbreak
      match n, hn with
      | n + 1, _ =>
        have h0 := hok 0 (Nat.le_refl 0)
        rw [Nat.add_zero] at h0 hbreak
        simp only [selfTestLoop, h0, hbreak]
        norm_num [kSTkErrOk]
  | succ j ih =>
      intro n k lv hn hok hip hbreak
      match n, hn with
      | n + 1, hn2 =>
        have h0 := hok 0 (Nat.zero_le (j + 1))
        have h1 := hip 0 (Nat.succ_pos j)
        rw [Nat.add_zero] at h0 h1
        have hrest := ih n (k + 1) (reads k).2 (Nat.lt_of_succ_lt_succ hn2)
          (fun i hi => by
            have := hok (i + 1) (Nat.succ_le_succ hi)
            rwa [show k + (i + 1) = k + 1 + i by omega] at this)
          (fun i hi => by
            have := hip (i + 1) (Nat.succ_lt_succ hi)
            rwa [show k + (i + 1) = k + 1 + i by omega] at this)
          (by rwa [show k + 1 + j = k + (j + 1) by omega])
        simp only [selfTestLoop, h0, h1]
        norm_num [kSTkErrOk]
        refine ⟨by rw [hrest.1], ?_⟩
        rw [hrest.2]
        congr 2
        omega

/-- The loop action trace is a 5 ms delay before each register read. -/
lemma selfTestLoop_ops (reads : Nat → Int × Nat) :
    ∀ n k lv, (selfTestLoop reads n k lv).ops
      = selfTestPollOps (selfTestLoop reads n k lv).polls := by
  intro n
  induction n with
  | zero => intro k lv; rfl
  | succ n ih =>
      intro k lv
      simp only [selfTestLoop]
      split
      · rfl
      · split
        · rfl
        · simp only [selfTestPollOps]
          rw [ih (k + 1) _]

/-- C8: `selfTest` writes the start bit, then polls the self-test register at
most 10 times with a 5 ms delay before each read, exiting the loop early once
the in-progress flag (bit 1) reads 0; whenever the loop ends — by early exit
or by exhausting the 10 attempts — the result is OK exactly when the pass
flag (bit 2) of the last-read value is 1; in particular a run where
in-progress never clears polls all 10 times and judges the 10th value. -/
theorem selfTest_spec (reads : Nat → Int × Nat)
    (hok : ∀ i, i < 10 → (reads i).1 = kSTkErrOk) :
    (selfTest true 2 reads).polls ≤ 10
    ∧ (selfTest true 2 reads).code
        = (if Nat.testBit (selfTest true 2 reads).lastVal 2 then kSTkErrOk
           else kSTkErrFail)
    ∧ (selfTest true 2 reads).ops
        = DevOp.writeReg kRegSelfTest 1 :: selfTestPollOps (selfTest true 2 reads).polls
    ∧ ((∀ i, i < 10 → Nat.testBit (reads i).2 1 = true) →
        (selfTest true 2 reads).polls = 10
        ∧ (selfTest true 2 reads).lastVal = (reads 9).2)
    ∧ (∀ j, j < 10 → (∀ i, i ≤ j → (reads i).1 = kSTkErrOk) →
        (∀ i, i < j → Nat.testBit (reads i).2 1 = true) →
        Nat.testBit (reads j).2 1 = false →
        (selfTest true 2 reads).polls = j + 1
        ∧ (selfTest true 2 reads).lastVal = (reads j).2) := by
  have hw : writeRegisterByte true 2 = kSTkErrOk := rfl
  have hz : ∀ i, i < 10 → (reads (0 + i)).1 = kSTkErrOk := by
    intro i hi; rw [Nat.zero_add]; exact hok i hi
  refine ⟨?_, ?_, ?_, ?_, ?_⟩
  · simp only [selfTest, hw]
    norm_num [kSTkErrOk]
    exact selfTestLoop_le reads 10 0 1
  · simp only [selfTest, hw]
    norm_num [kSTkErrOk]
    exact selfTestLoop_code reads 10 0 1 hz
  · simp only [selfTest, hw]
    norm_num [kSTkErrOk]
    exact selfTestLoop_ops reads 10 0 1
  · intro hip
    simp only [selfTest, hw]
    norm_num [kSTkErrOk]
    have := selfTestLoop_exhaust reads 10 0 1 (by norm_num) hz
      (fun i hi => by rw [Nat.zero_add]; exact hip i hi)
    rw [Nat.zero_add] at this
    exact this
  · intro j hj hjok hjip hjbreak
    simp only [selfTest, hw]
    norm_num [kSTkErrOk]
    have := selfTestLoop_break reads j 10 0 1 hj
      (fun i hi => by rw [Nat.zero_add]; exact hjok i hi)
      (fun i hi => by rw [Nat.zero_add]; exact hjip i hi)
      (by rw [Nat.zero_add]; exact hjbreak)
    rw [Nat.zero_add] at this
    exact this

/-- C8 witness: a device whose self-test register always reads 2 (in-progress
set, pass clear) exhausts all 10 polls and the run returns FAIL. -/
theorem selfTest_spec_witness :
    (∀ i, i < 10 → ((fun _ => ((kSTkErrOk : Int), (2 : Nat))) i).1 = kSTkErrOk)
    ∧ (selfTest true 2 (fun _ => ((kSTkErrOk : Int), (2 : Nat)))).polls = 10
    ∧ (selfTest true 2 (fun _ => ((kSTkErrOk : Int), (2 : Nat)))).code = kSTkErrFail := by
  have hok : ∀ i, i < 10 → ((fun _ => ((kSTkErrOk : Int), (2 : Nat))) i).1 = kSTkErrOk :=
    fun _ _ => rfl
  have h := selfTest_spec (fun _ => ((kSTkErrOk : Int), (2 : Nat))) hok
  have hex := h.2.2.2.1 (fun i hi => by show Nat.testBit 2 1 = true; decide)
  refine ⟨hok, hex.1, ?_⟩
  rw [h.2.1, hex.2]
  decide

/-- Splitting a signed 16-bit value into its little-endian twos-complement
bytes and reassembling them through the `int16_t` cast is the identity. -/
lemma bytes_toSigned16 (v : Int) (h1 : -32768 ≤ v) (h2 : v < 32768) :
    toSigned16 ((bytesOfInt16 v).2 * 256 + (bytesOfInt16 v).1) = v := by
  simp only [toSigned16, bytesOfInt16]
  have hw : (v % 65536).toNat / 256 * 256 + (v % 65536).toNat % 256 = (v % 65536).toNat := by
    omega
  rw [hw]
  split <;> omega

/-- Truncation toward zero of an integer-valued rational is that integer. -/
lemma ratTrunc_intCast (v : Int) : ratTrunc (v : ℚ) = v := by
  rw [ratTrunc]
  split
  · exact Int.floor_intCast v
  · rw [show -(v : ℚ) = ((-v : Int) : ℚ) by push_cast; ring, Int.floor_intCast]
    omega

/-- C9: the pose codec round-trip law.  For all signed 16-bit raw values and
nonzero fixed-point scales and unit factors, decoding a 6-byte register block
with `regsToPose` (x, y with scale `s` and factor `u`; heading with scale `sh`
and factor `uh`) and re-encoding the resulting physical values with
`poseToRegs` using the reciprocal scales recovers the original block exactly —
in particular each raw value is recovered within 1 LSB. -/
theorem poseCodec_roundtrip (vx vy vh : Int) (s sh u uh : ℚ)
    (hx1 : -32768 ≤ vx) (hx2 : vx < 32768)
    (hy1 : -32768 ≤ vy) (hy2 : vy < 32768)
    (hh1 : -32768 ≤ vh) (hh2 : vh < 32768)
    (hs : s ≠ 0) (hsh : sh ≠ 0) (hu : u ≠ 0) (huh : uh ≠ 0) :
    poseToRegs (regsToPose (rawPoseBytes vx vy vh) s sh u uh) (1 / s) (1 / sh) u uh
      = rawPoseBytes vx vy vh := by
  have ex := bytes_toSigned16 vx hx1 hx2
  have ey := bytes_toSigned16 vy hy1 hy2
  have eh := bytes_toSigned16 vh hh1 hh2
  simp only [rawPoseBytes, regsToPose, List.getD_cons_zero, List.getD_cons_succ]
  rw [ex, ey, eh]
  simp only [poseToRegs]
  rw [show (vx : ℚ) * s * u * (1 / s) / u = (vx : ℚ) by field_simp; ring,
      show (vy : ℚ) * s * u * (1 / s) / u = (vy : ℚ) by field_simp; ring,
      show (vh : ℚ) * sh * uh * (1 / sh) / uh = (vh : ℚ) by field_simp; ring,
      ratTrunc_intCast, ratTrunc_intCast, ratTrunc_intCast]

/-- C9 witness: a concrete round-trip with mixed-sign raw values and the
position-register scales (10 m / 2^15 per LSB, π rad / 2^15 per LSB as
rationals) under the inch and degree unit factors. -/
theorem poseCodec_roundtrip_witness :
    poseToRegs
        (regsToPose (rawPoseBytes (-12345) 7 (-1)) (10 / 32768) (314 / 3276800)
          kMeterToInch kRadianToDegree)
        (1 / (10 / 32768)) (1 / (314 / 3276800)) kMeterToInch kRadianToDegree
      = rawPoseBytes (-12345) 7 (-1) :=
  poseCodec_roundtrip (-12345) 7 (-1) (10 / 32768) (314 / 3276800)
    kMeterToInch kRadianToDegree
    (by decide) (by decide) (by decide) (by decide) (by decide) (by decide)
    (by norm_num) (by norm_num) (by norm_num [kMeterToInch])
    (by norm_num [kRadianToDegree])
